import Mathlib

set_option autoImplicit false

/-!
Verification of the lal-webhook quota gatekeeper (`cmd/webhook/main.go`).

The Redis-backed state is embedded as association lists: the quota ledger is
keyed by the full Redis key string `remain:<token>:<month>`, the
session-to-token mapping by session id, and the active-session sets by stream
name (the Redis keys `sid_to_token:<sid>` and `active_sids:<stream>` are in
bijection with the sid / stream, so the prefix is dropped in the embedding).
Time-based behaviour that a pure embedding cannot observe (the 2-hour TTL on
the mapping, Redis auto-deleting empty sets, wall-clock month computation) is
noted at each definition; handlers take the current month as a parameter.
-/

namespace LalWebhook

/-! ### Association-list primitives (the Redis keyspace) -/

/-- First-match lookup in an association list (Redis `GET` / set lookup). -/
def alookup {α : Type} (k : String) : List (String × α) → Option α
  | [] => none
  | (k1, v) :: rest => if k1 = k then some v else alookup k rest

/-- Overwrite the value at `k`, appending a fresh entry if absent
(Redis `SET` / `DECRBY` key creation). -/
def aset {α : Type} (k : String) (v : α) : List (String × α) → List (String × α)
  | [] => [(k, v)]
  | (k1, v1) :: rest => if k1 = k then (k1, v) :: rest else (k1, v1) :: aset k v rest

/-- Delete every entry with key `k` (Redis `DEL`); a no-op when `k` is absent. -/
def adel {α : Type} (k : String) : List (String × α) → List (String × α)
  | [] => []
  | (k1, v) :: rest => if k1 = k then adel k rest else (k1, v) :: adel k rest

/-- Remove every occurrence of `x` from a member list (Redis `SREM`);
a no-op when `x` is absent. -/
def lrem (x : String) : List String → List String
  | [] => []
  | y :: rest => if y = x then lrem x rest else y :: lrem x rest

/-! ### Go `net/url` model

`main.go` calls `url.Parse(msg.Url)` discarding the error, then
`u.Query().Get("token")`.  The embedding models the part of `net/url` this
exercises: the parse fails (returning `none`, i.e. a nil `*URL` in Go) when
the URL contains an ASCII control character or starts with `:` ("missing
protocol scheme") — two genuine failure modes of Go's parser; other inputs
are treated as parsed, with `RawQuery` the text after the first `?` of the
fragment-stripped URL.  `Query()` follows Go's `ParseQuery`: split on `&`,
skip empty segments and segments containing `;`, cut each at the first `=`,
percent-decode key and value (`+` becomes space), skipping pairs whose
decoding fails. -/

/-- Value of an ASCII hex digit, `none` for a non-hex character. -/
def hexVal (c : Char) : Option Nat :=
  if '0' ≤ c ∧ c ≤ '9' then some (c.toNat - '0'.toNat)
  else if 'a' ≤ c ∧ c ≤ 'f' then some (c.toNat - 'a'.toNat + 10)
  else if 'A' ≤ c ∧ c ≤ 'F' then some (c.toNat - 'A'.toNat + 10)
  else none

/-- Go `url.QueryUnescape` in query-component mode over characters:
`%XY` decodes a byte, `+` decodes to space, a malformed `%` escape fails. -/
def queryUnescapeChars : List Char → Option (List Char)
  | [] => some []
  | '%' :: c1 :: c2 :: rest =>
    match hexVal c1, hexVal c2 with
    | some h1, some h2 => (queryUnescapeChars rest).map (Char.ofNat (16 * h1 + h2) :: ·)
    | _, _ => none
  | '%' :: _ => none
  | '+' :: rest => (queryUnescapeChars rest).map (' ' :: ·)
  | c :: rest => (queryUnescapeChars rest).map (c :: ·)

/-- Go `strings.Split` with a single-character separator. -/
def splitOnChar (c : Char) : List Char → List (List Char)
  | [] => [[]]
  | x :: rest =>
    let r := splitOnChar c rest
    if x = c then [] :: r
    else
      match r with
      | [] => [[x]]
      | seg :: segs => (x :: seg) :: segs

/-- Go `strings.Cut` at the first occurrence of `c`: the parts before and
after it (the part after is empty when `c` does not occur). -/
def cutAt (c : Char) : List Char → List Char × List Char
  | [] => ([], [])
  | x :: rest =>
    if x = c then ([], rest)
    else
      let r := cutAt c rest
      (x :: r.1, r.2)

/-- Go `url.ParseQuery`, keeping pairs in order of appearance: split on `&`,
skip empty segments and segments containing `;`, cut each at the first `=`,
and skip pairs whose key or value fails unescaping. -/
def parseQueryPairs (q : List Char) : List (String × String) :=
  (splitOnChar '&' q).foldr (fun seg acc =>
    if seg = [] then acc
    else if seg.contains ';' then acc
    else
      let kv := cutAt '=' seg
      match queryUnescapeChars kv.1, queryUnescapeChars kv.2 with
      | some k, some v => (k.asString, v.asString) :: acc
      | _, _ => acc) []

/-- `url.Values.Get`: first value for the key, `""` when absent. -/
def queryGet (q : List Char) (key : String) : String :=
  (alookup key (parseQueryPairs q)).getD ""

/-- ASCII control character (Go `net/url` rejects these in a URL). -/
def isCtl (c : Char) : Bool :=
  decide (c.toNat < 0x20) || decide (c.toNat = 0x7f)

structure GoURL where
  rawQuery : String
deriving DecidableEq, Repr

/-- Whether the URL starts with `:` (Go "missing protocol scheme"). -/
def startsWithColon : List Char → Bool
  | ':' :: _ => true
  | _ => false

/-- Modelled `url.Parse`: fails on a control character or a leading `:`
(Go "missing protocol scheme"); otherwise yields the raw query — the text
after the first `?` of the fragment-stripped URL. -/
def urlParse (s : String) : Option GoURL :=
  if s.data.any isCtl then none
  else if startsWithColon s.data then none
  else some ⟨((cutAt '?' (cutAt '#' s.data).1).2).asString⟩

/-- `u.Query().Get("token")` on a parsed URL. -/
def tokenOf (u : GoURL) : String :=
  queryGet u.rawQuery.data "token"

/-- Token extraction end to end: `none` when `url.Parse` fails (in Go the
discarded error leaves `u` nil and `u.Query()` panics). -/
def extractToken (s : String) : Option String :=
  (urlParse s).map tokenOf

/-! ### The Redis-backed state and its primitive operations -/

structure RState where
  /-- Ledger entries, keyed by the full key `remain:<token>:<month>`. -/
  remain : List (String × Int)
  /-- Session-to-token mapping, keyed by session id
  (`sid_to_token:<sid>` in Redis; the 2-hour TTL is not modelled). -/
  sidTok : List (String × String)
  /-- Active-session sets, keyed by stream name (`active_sids:<stream>`). -/
  active : List (String × List String)
deriving DecidableEq, Repr

def remainKey (token month : String) : String :=
  "remain:" ++ token ++ ":" ++ month

/-- Redis `SETNX key v`: initialize only if absent, never overwrite. -/
def setNX (key : String) (v : Int) (st : RState) : RState :=
  match alookup key st.remain with
  | some _ => st
  | none => { st with remain := st.remain ++ [(key, v)] }

/-- `rdb.Get(key).Int()`: the stored integer, `0` on a missing key
(the error from a missing key is discarded and `.Int()` yields 0). -/
def redisGetInt (key : String) (st : RState) : Int :=
  (alookup key st.remain).getD 0

/-- Redis `DECRBY key n`: atomically subtract, treating a missing key as 0
and creating it; returns the post-decrement value.  Not clamped at zero. -/
def decrBy (key : String) (n : Int) (st : RState) : Int × RState :=
  let nb := (alookup key st.remain).getD 0 - n
  (nb, { st with remain := aset key nb st.remain })

/-- `rdb.Set("sid_to_token:"++sid, token, 2h)` (TTL not modelled). -/
def setSidTok (sid token : String) (st : RState) : RState :=
  { st with sidTok := aset sid token st.sidTok }

/-- `rdb.Del("sid_to_token:"++sid)`. -/
def delSidTok (sid : String) (st : RState) : RState :=
  { st with sidTok := adel sid st.sidTok }

/-- `rdb.SAdd("active_sids:"++stream, sid)` on the underlying map. -/
def saddList (stream sid : String) : List (String × List String) → List (String × List String)
  | [] => [(stream, [sid])]
  | (s, ms) :: rest =>
    if s = stream then (s, if sid ∈ ms then ms else ms ++ [sid]) :: rest
    else (s, ms) :: saddList stream sid rest

def sadd (stream sid : String) (st : RState) : RState :=
  { st with active := saddList stream sid st.active }

/-- `rdb.SRem("active_sids:"++stream, sid)` on the underlying map. -/
def sremList (stream sid : String) : List (String × List String) → List (String × List String)
  | [] => []
  | (s, ms) :: rest =>
    if s = stream then (s, lrem sid ms) :: sremList stream sid rest
    else (s, ms) :: sremList stream sid rest

/-- `rdb.SRem("active_sids:"++stream, sid)`: remove the member if present;
a no-op on an absent member or stream.  (Redis deletes a set key that
becomes empty; the embedding keeps an empty list, which no operation
distinguishes from an absent key.) -/
def srem (stream sid : String) (st : RState) : RState :=
  { st with active := sremList stream sid st.active }

/-- `SMembers` of a stream's active set. -/
def activeOf (st : RState) (stream : String) : List String :=
  (alookup stream st.active).getD []

/-! ### The webhook handlers and the Enforcer (`cmd/webhook/main.go`) -/

def DefaultQuota : Int := 120

/-- The notification body (`LalNotify`); Go zero value is all-empty. -/
structure LalNotify where
  sessionID : String
  id : String
  streamName : String
  url : String
deriving DecidableEq, Repr, Inhabited

/-- `(l *LalNotify) GetID`: `SessionID` if non-empty, else `ID`. -/
def LalNotify.GetID (l : LalNotify) : String :=
  if l.sessionID ≠ "" then l.sessionID else l.id

/-- Observable outcome of one `/on_sub_start` request:
`errorCode = none` means the handler returned without writing a JSON
response; `delayedKicks` records the background
`(grace delay in ms, stream, session)` evictions it scheduled. -/
structure StartOut where
  errorCode : Option Int
  state : RState
  delayedKicks : List (Nat × String × String)
deriving DecidableEq, Repr

/-- The `/on_sub_start` handler.  `body = none` models a request whose JSON
fails `ShouldBindJSON`.  The result is `none` when `url.Parse` fails: the
code discards the error and dereferences the nil `*URL` (`u.Query()`),
a panic. -/
def onSubStart (month : String) (body : Option LalNotify) (st : RState) : Option StartOut :=
  match body with
  | none => some ⟨none, st, []⟩
  | some msg =>
    match urlParse msg.url with
    | none => none
    | some u =>
      let token := tokenOf u
      let sID := msg.GetID
      if token = "" then
        some ⟨some 1001, st, [(200, msg.streamName, sID)]⟩
      else
        let tokenKey := remainKey token month
        let st1 := setNX tokenKey DefaultQuota st
        let remain := redisGetInt tokenKey st1
        if remain ≤ 0 then
          some ⟨some 1002, st1, [(500, msg.streamName, sID)]⟩
        else
          let st2 := setSidTok sID token st1
          let st3 := sadd msg.streamName sID st2
          some ⟨some 0, st3, []⟩

/-- The `/on_sub_stop` handler: the `ShouldBindJSON` error is ignored (a
failed bind leaves the zero-valued body), the session is pruned from its
stream's set and its mapping deleted, and `{error_code: 0}` is returned
unconditionally. -/
def onSubStop (body : Option LalNotify) (st : RState) : Int × RState :=
  let msg := body.getD default
  let sID := msg.GetID
  (0, delSidTok sID (srem msg.streamName sID st))

/-- One session's step of the Enforcer inner loop: resolve the token
(missing mapping reads as `""` and is skipped), `DECRBY` the ledger by 5,
and on a post-decrement balance ≤ 0 issue one synchronous kick, remove the
sid from the stream's set and delete its mapping.  The second component
lists the `(stream, sid)` kicks issued. -/
def enforceSession (month stream sid : String) (st : RState) : RState × List (String × String) :=
  let token := (alookup sid st.sidTok).getD ""
  if token = "" then (st, [])
  else
    let tokenKey := remainKey token month
    let d := decrBy tokenKey 5 st
    if d.1 ≤ 0 then
      (delSidTok sid (srem stream sid d.2), [(stream, sid)])
    else (d.2, [])

/-- Enforcer loop over the `SMembers` snapshot of one stream. -/
def enforceSids (month stream : String) (sids : List String) (st : RState) :
    RState × List (String × String) :=
  match sids with
  | [] => (st, [])
  | sid :: rest =>
    let r1 := enforceSession month stream sid st
    let r2 := enforceSids month stream rest r1.1
    (r2.1, r1.2 ++ r2.2)

/-- Enforcer loop over the `Keys "active_sids:*"` snapshot: each stream's
member list is read (`SMembers`) when that stream is reached. -/
def enforceStreams (month : String) (streams : List String) (st : RState) :
    RState × List (String × String) :=
  match streams with
  | [] => (st, [])
  | s :: rest =>
    let r1 := enforceSids month s (activeOf st s) st
    let r2 := enforceStreams month rest r1.1
    (r2.1, r1.2 ++ r2.2)

/-- One Enforcer tick (`startEnforcer` loop body): the month is computed at
the tick, the stream keys are snapshotted, then each stream is processed. -/
def enforceCycle (month : String) (st : RState) : RState × List (String × String) :=
  enforceStreams month (st.active.map Prod.fst) st

/-- One row of the `/quotas` response. -/
structure QuotaInfo where
  stream : String
  remaining : Int
  status : String
deriving DecidableEq, Repr

/-- The glob `remain:*:2026-02` hard-coded in the `/quotas` handler:
`*` matches any (possibly empty) substring. -/
def quotasPattern (k : String) : Bool :=
  List.isPrefixOf "remain:".data k.data && List.isSuffixOf ":2026-02".data k.data
    && decide (15 ≤ k.data.length)

/-- The `GET /quotas` handler: enumerate keys matching the hard-coded
pattern `remain:*:2026-02`, and for each return the full key as `stream`,
its integer value, and `"exhausted"` when the value is ≤ 0 else
`"active"`.  Takes no month parameter because the code uses none. -/
def quotasHandler (st : RState) : List QuotaInfo :=
  (st.remain.filter (fun p => quotasPattern p.1)).map (fun p =>
    let v := redisGetInt p.1 st
    ⟨p.1, v, if v ≤ 0 then "exhausted" else "active"⟩)

/-! ### Lemmas about the keyspace primitives -/

theorem alookup_append_some {α : Type} (k : String) (l1 l2 : List (String × α)) (v : α)
    (h : alookup k l1 = some v) : alookup k (l1 ++ l2) = some v := by
  induction l1 with
  | nil => simp [alookup] at h
  | cons p rest ih =>
    obtain ⟨k1, v1⟩ := p
    rw [List.cons_append]
    by_cases hk : k1 = k
    · simpa [alookup, hk] using h
    · simp only [alookup, if_neg hk] at h ⊢
      exact ih h

theorem alookup_append_none {α : Type} (k : String) (l1 l2 : List (String × α))
    (h : alookup k l1 = none) : alookup k (l1 ++ l2) = alookup k l2 := by
  induction l1 with
  | nil => simp
  | cons p rest ih =>
    obtain ⟨k1, v1⟩ := p
    rw [List.cons_append]
    by_cases hk : k1 = k
    · simp [alookup, hk] at h
    · simp only [alookup, if_neg hk] at h ⊢
      exact ih h

theorem alookup_aset_self {α : Type} (k : String) (v : α) (l : List (String × α)) :
    alookup k (aset k v l) = some v := by
  induction l with
  | nil => simp [aset, alookup]
  | cons p rest ih =>
    obtain ⟨k1, v1⟩ := p
    by_cases hk : k1 = k
    · simp [aset, alookup, hk]
    · simp [aset, alookup, hk, ih]

theorem alookup_aset_ne {α : Type} (k k2 : String) (v : α) (l : List (String × α))
    (h : k2 ≠ k) : alookup k2 (aset k v l) = alookup k2 l := by
  induction l with
  | nil => simp [aset, alookup, Ne.symm h]
  | cons p rest ih =>
    obtain ⟨k1, v1⟩ := p
    by_cases hk : k1 = k
    · subst hk
      simp [aset, alookup, Ne.symm h]
    · simp [aset, alookup, hk, ih]

theorem alookup_adel_self {α : Type} (k : String) (l : List (String × α)) :
    alookup k (adel k l) = none := by
  induction l with
  | nil => simp [adel, alookup]
  | cons p rest ih =>
    obtain ⟨k1, v1⟩ := p
    by_cases hk : k1 = k
    · simp [adel, hk, ih]
    · simp [adel, alookup, hk, ih]

theorem adel_eq_self {α : Type} (k : String) (l : List (String × α))
    (h : alookup k l = none) : adel k l = l := by
  induction l with
  | nil => simp [adel]
  | cons p rest ih =>
    obtain ⟨k1, v1⟩ := p
    by_cases hk : k1 = k
    · simp [alookup, hk] at h
    · simp only [alookup, if_neg hk] at h
      simp [adel, hk, ih h]

theorem not_mem_lrem (x : String) (l : List String) : x ∉ lrem x l := by
  induction l with
  | nil => simp [lrem]
  | cons y rest ih =>
    by_cases hy : y = x
    · simpa [lrem, hy] using ih
    · simp [lrem, hy, ih, Ne.symm hy]

theorem lrem_eq_self (x : String) (l : List String) (h : x ∉ l) : lrem x l = l := by
  induction l with
  | nil => simp [lrem]
  | cons y rest ih =>
    simp only [List.mem_cons, not_or] at h
    simp [lrem, Ne.symm h.1, ih h.2]

theorem lrem_lrem (x : String) (l : List String) : lrem x (lrem x l) = lrem x l :=
  lrem_eq_self x (lrem x l) (not_mem_lrem x l)

theorem adel_adel {α : Type} (k : String) (l : List (String × α)) :
    adel k (adel k l) = adel k l :=
  adel_eq_self k (adel k l) (alookup_adel_self k l)

theorem alookup_sremList (stream sid : String) (l : List (String × List String)) :
    alookup stream (sremList stream sid l) = (alookup stream l).map (lrem sid) := by
  induction l with
  | nil => simp [sremList, alookup]
  | cons p rest ih =>
    obtain ⟨k1, ms⟩ := p
    by_cases hk : k1 = stream
    · subst hk
      simp [sremList, alookup]
    · simp [sremList, alookup, hk, ih]

theorem sremList_eq_self (stream sid : String) (l : List (String × List String))
    (h : ∀ p ∈ l, p.1 = stream → sid ∉ p.2) : sremList stream sid l = l := by
  induction l with
  | nil => simp [sremList]
  | cons p rest ih =>
    obtain ⟨k1, ms⟩ := p
    have hrest : ∀ p ∈ rest, p.1 = stream → sid ∉ p.2 :=
      fun p hp => h p (List.mem_cons_of_mem _ hp)
    by_cases hk : k1 = stream
    · have hms : sid ∉ ms := h (k1, ms) (List.mem_cons_self _ _) hk
      simp [sremList, hk, lrem_eq_self sid ms hms, ih hrest]
    · simp [sremList, hk, ih hrest]

theorem sremList_sremList (stream sid : String) (l : List (String × List String)) :
    sremList stream sid (sremList stream sid l) = sremList stream sid l := by
  induction l with
  | nil => simp [sremList]
  | cons p rest ih =>
    obtain ⟨k1, ms⟩ := p
    by_cases hk : k1 = stream
    · simp [sremList, hk, lrem_lrem, ih]
    · simp [sremList, hk, ih]

theorem activeOf_srem_self (stream sid : String) (st : RState) :
    activeOf (srem stream sid st) stream = lrem sid (activeOf st stream) := by
  unfold activeOf srem
  rw [alookup_sremList]
  cases alookup stream st.active <;> simp [lrem]

theorem alookup_setNX_of_some (k key : String) (v w : Int) (st : RState)
    (h : alookup k st.remain = some w) : alookup k (setNX key v st).remain = some w := by
  unfold setNX
  cases hk : alookup key st.remain
  · simp only
    exact alookup_append_some _ _ _ _ h
  · exact h

theorem setNX_of_present (key : String) (v w : Int) (st : RState)
    (h : alookup key st.remain = some w) : setNX key v st = st := by
  unfold setNX
  rw [h]

theorem alookup_append_single_ne {α : Type} (k k2 : String) (v : α)
    (l : List (String × α)) (h : k2 ≠ k) :
    alookup k2 (l ++ [(k, v)]) = alookup k2 l := by
  induction l with
  | nil => simp [alookup, Ne.symm h]
  | cons p rest ih =>
    obtain ⟨k1, v1⟩ := p
    by_cases hk : k1 = k2
    · simp [alookup, hk]
    · simp [alookup, hk, ih]

theorem alookup_setNX_ne (k key : String) (v : Int) (st : RState) (h : k ≠ key) :
    alookup k (setNX key v st).remain = alookup k st.remain := by
  unfold setNX
  cases hk : alookup key st.remain
  · simp only
    exact alookup_append_single_ne _ _ _ _ h
  · rfl

theorem alookup_setNX_absent (key : String) (v : Int) (st : RState)
    (h : alookup key st.remain = none) : alookup key (setNX key v st).remain = some v := by
  unfold setNX
  rw [h]
  simp only
  rw [alookup_append_none _ _ _ h]
  simp [alookup]

/-! ### The claims -/

/-- C10: the admission handler is not total: `url.Parse`'s error is
discarded and the nil result is dereferenced by `u.Query()`, so on a body
whose `url` fails URL parsing (here `"://x"`, Go's "missing protocol
scheme") the embedded handler reaches the undefined (panic) branch,
modelled as `none`, instead of returning a decision. -/
theorem admission_panics_on_unparseable_url :
    urlParse "://x" = none ∧
    onSubStart "2026-02" (some ⟨"s1", "", "live", "://x"⟩) ⟨[], [], []⟩ = none := by
  decide

/-- C3 (code bug): the `/quotas` handler enumerates the hard-coded pattern
`remain:*:2026-02` instead of the current month, and labels each row with
the raw ledger key instead of the token.  A token (`"abc"`) with an
admission-check entry in month `2026-03` yields no row at all; when the
hard-coded month matches, the row's label is the full key
`"remain:abc:2026-02"`, not the token. -/
theorem quotas_hardcoded_month_eval :
    quotasHandler ⟨[("remain:abc:2026-03", 115)], [], []⟩ = [] ∧
    quotasHandler ⟨[("remain:abc:2026-02", 115)], [], []⟩ =
      [⟨"remain:abc:2026-02", 115, "active"⟩] := by
  decide

/-- C5 (counterexample): on a malformed body the handler returns without
writing any JSON response (`errorCode = none`), so the claimed
invalid-input error code 1 is never sent; state is untouched. -/
theorem malformed_body_cex :
    onSubStart "2026-02" none ⟨[("remain:t:2026-02", 9)], [], []⟩ =
      some ⟨none, ⟨[("remain:t:2026-02", 9)], [], []⟩, []⟩ ∧
    ((none : Option Int) ≠ some 1) := by
  decide

/-- C5 (amended): for every session-start notification whose body is
malformed, the handler returns early without writing any response (no
error code at all), mutates no state, and schedules no eviction. -/
theorem malformed_body_no_response_no_mutation (month : String) (st : RState) :
    onSubStart month none st = some ⟨none, st, []⟩ :=
  rfl

/-- C4 (counterexample): the two denial paths do not share one grace
delay: the no-token denial sleeps 200 ms but the exhausted-quota denial
sleeps 500 ms, which is neither equal to 200 ms nor within 300 ms. -/
theorem grace_delay_cex :
    (onSubStart "2026-02" (some ⟨"s1", "", "live", "rtmp://h/a?x=1"⟩)
        ⟨[], [], []⟩ = some ⟨some 1001, ⟨[], [], []⟩, [(200, "live", "s1")]⟩) ∧
    (onSubStart "2026-02" (some ⟨"s1", "", "live", "rtmp://h/a?token=t"⟩)
        ⟨[("remain:t:2026-02", 0)], [], []⟩ =
      some ⟨some 1002, ⟨[("remain:t:2026-02", 0)], [], []⟩, [(500, "live", "s1")]⟩) ∧
    ((500 : Nat) ≠ 200 ∧ ¬((500 : Nat) ≤ 300)) := by
  decide

/-- C4 (amended): every denial for a missing token schedules its background
eviction after a 200 ms grace delay, while every denial for an exhausted
quota schedules it after a 500 ms delay — fixed but different delays. -/
theorem denial_grace_delays (month : String) (msg : LalNotify) (st : RState) (out : StartOut)
    (h : onSubStart month (some msg) st = some out) :
    (out.errorCode = some 1001 → out.delayedKicks = [(200, msg.streamName, msg.GetID)]) ∧
    (out.errorCode = some 1002 → out.delayedKicks = [(500, msg.streamName, msg.GetID)]) := by
  cases hu : urlParse msg.url with
  | none =>
    simp [onSubStart, hu] at h
  | some u =>
    simp only [onSubStart, hu] at h
    split_ifs at h with h1 h2 <;>
      · simp only [Option.some.injEq] at h
        subst h
        refine ⟨fun he => ?_, fun he => ?_⟩ <;> simp_all

/-- Witness for C4's amended theorem at a concrete denied admission. -/
theorem denial_grace_delays_witness :
    ∃ out, onSubStart "2026-02" (some ⟨"s1", "", "live", "rtmp://h/a?x=1"⟩)
        ⟨[], [], []⟩ = some out ∧ out.delayedKicks = [(200, "live", "s1")] := by
  refine ⟨⟨some 1001, ⟨[], [], []⟩, [(200, "live", "s1")]⟩, by decide, ?_⟩
  exact (denial_grace_delays "2026-02" ⟨"s1", "", "live", "rtmp://h/a?x=1"⟩
      ⟨[], [], []⟩ ⟨some 1001, ⟨[], [], []⟩, [(200, "live", "s1")]⟩ (by decide)).1 rfl

/-- C6: every session-start notification whose connection URL parses but
carries no `token` query parameter (so extraction yields `""`) is denied
with error code 1001, and the handler leaves the entire state — in
particular the ledger — untouched. -/
theorem no_token_denied_unchanged (month : String) (msg : LalNotify) (st : RState)
    (h : extractToken msg.url = some "") :
    onSubStart month (some msg) st =
      some ⟨some 1001, st, [(200, msg.streamName, msg.GetID)]⟩ := by
  unfold extractToken at h
  cases hu : urlParse msg.url with
  | none =>
    rw [hu] at h
    cases h
  | some u =>
    rw [hu] at h
    simp at h
    simp [onSubStart, hu, h]

/-- Witness for C6 at a concrete token-less URL. -/
theorem no_token_denied_unchanged_witness :
    onSubStart "2026-02" (some ⟨"s7", "", "live", "rtmp://h/a?x=1"⟩)
        ⟨[("remain:t:2026-02", 7)], [], []⟩ =
      some ⟨some 1001, ⟨[("remain:t:2026-02", 7)], [], []⟩, [(200, "live", "s7")]⟩ := by
  rw [no_token_denied_unchanged "2026-02" ⟨"s7", "", "live", "rtmp://h/a?x=1"⟩
      ⟨[("remain:t:2026-02", 7)], [], []⟩ (by decide)]
  decide

/-- C7: a session-start notification whose token's current-month ledger
entry holds a balance ≤ 0 is denied with error code 1002, and the check
leaves the state — in particular that balance — unchanged (the
init-if-absent write is a no-op on the existing entry). -/
theorem exhausted_denied_unchanged (month : String) (msg : LalNotify) (st : RState)
    (tk : String) (b : Int) (htk : extractToken msg.url = some tk) (hne : tk ≠ "")
    (hb : alookup (remainKey tk month) st.remain = some b) (hb0 : b ≤ 0) :
    onSubStart month (some msg) st =
      some ⟨some 1002, st, [(500, msg.streamName, msg.GetID)]⟩ := by
  unfold extractToken at htk
  cases hu : urlParse msg.url with
  | none =>
    rw [hu] at htk
    cases htk
  | some u =>
    rw [hu] at htk
    simp at htk
    subst htk
    have hset : setNX (remainKey (tokenOf u) month) DefaultQuota st = st :=
      setNX_of_present _ _ b st hb
    simp [onSubStart, hu, hne, hset, redisGetInt, hb, hb0]

/-- Witness for C7 at a concrete exhausted token. -/
theorem exhausted_denied_unchanged_witness :
    onSubStart "2026-02" (some ⟨"s1", "", "live", "rtmp://h/a?token=t"⟩)
        ⟨[("remain:t:2026-02", 0)], [], []⟩ =
      some ⟨some 1002, ⟨[("remain:t:2026-02", 0)], [], []⟩, [(500, "live", "s1")]⟩ := by
  rw [exhausted_denied_unchanged "2026-02" ⟨"s1", "", "live", "rtmp://h/a?token=t"⟩
      ⟨[("remain:t:2026-02", 0)], [], []⟩ "t" 0 (by decide) (by decide) (by decide) (by decide)]
  decide

/-- C2: on any admission check for token `tk` in month `month`, an absent
ledger entry is created holding exactly the default quota, an existing
entry keeps its value (the initialization never overwrites), and no other
ledger key changes; the decrement happens only in the Enforcer. -/
theorem admission_init_if_absent (month : String) (msg : LalNotify) (st : RState)
    (tk : String) (out : StartOut) (htk : extractToken msg.url = some tk) (hne : tk ≠ "")
    (h : onSubStart month (some msg) st = some out) :
    (alookup (remainKey tk month) st.remain = none →
        alookup (remainKey tk month) out.state.remain = some DefaultQuota) ∧
    (∀ v, alookup (remainKey tk month) st.remain = some v →
        alookup (remainKey tk month) out.state.remain = some v) ∧
    (∀ k, k ≠ remainKey tk month → alookup k out.state.remain = alookup k st.remain) := by
  unfold extractToken at htk
  cases hu : urlParse msg.url with
  | none =>
    rw [hu] at htk
    cases htk
  | some u =>
    rw [hu] at htk
    simp at htk
    subst htk
    simp only [onSubStart, hu, if_neg hne] at h
    have hstate : out.state.remain =
        (setNX (remainKey (tokenOf u) month) DefaultQuota st).remain := by
      split_ifs at h with h1
      · simp only [Option.some.injEq] at h
        subst h
        rfl
      · simp only [Option.some.injEq] at h
        subst h
        rfl
    rw [hstate]
    refine ⟨fun habs => alookup_setNX_absent _ _ _ habs,
      fun v hv => alookup_setNX_of_some _ _ _ _ _ hv,
      fun k hk => alookup_setNX_ne _ _ _ _ hk⟩

/-- Witness for C2: the first admission check in a month creates the entry
at the default quota. -/
theorem admission_init_if_absent_witness :
    ∃ out, onSubStart "2026-02" (some ⟨"s1", "", "live", "rtmp://h/a?token=t"⟩)
        ⟨[], [], []⟩ = some out ∧
      alookup (remainKey "t" "2026-02") out.state.remain = some DefaultQuota := by
  refine ⟨⟨some 0, ⟨[("remain:t:2026-02", 120)], [("s1", "t")], [("live", ["s1"])]⟩, []⟩,
    by decide, ?_⟩
  exact (admission_init_if_absent "2026-02" ⟨"s1", "", "live", "rtmp://h/a?token=t"⟩
      ⟨[], [], []⟩ "t" _ (by decide) (by decide) (by decide)).1 (by decide)

/-- C8: every session-stop notification — including one for a session never
registered or already cleaned up — responds with error code 0
unconditionally, performs no ledger mutation, leaves the session id absent
from its stream's active set and without a mapping, and the removals are
idempotent: re-running the handler is a no-op, and on absent keys the
handler changes nothing. -/
theorem stop_cleanup (body : Option LalNotify) (st : RState) :
    (onSubStop body st).1 = 0 ∧
    (onSubStop body st).2.remain = st.remain ∧
    (body.getD default).GetID ∉
      activeOf (onSubStop body st).2 (body.getD default).streamName ∧
    alookup (body.getD default).GetID (onSubStop body st).2.sidTok = none ∧
    onSubStop body (onSubStop body st).2 = onSubStop body st ∧
    ((∀ p ∈ st.active, p.1 = (body.getD default).streamName →
        (body.getD default).GetID ∉ p.2) →
      alookup (body.getD default).GetID st.sidTok = none →
      (onSubStop body st).2 = st) := by
  refine ⟨rfl, rfl, ?_, alookup_adel_self _ _, ?_, ?_⟩
  · show (body.getD default).GetID ∉
      activeOf (srem (body.getD default).streamName (body.getD default).GetID st)
        (body.getD default).streamName
    rw [activeOf_srem_self]
    exact not_mem_lrem _ _
  · simp [onSubStop, delSidTok, srem, adel_adel, sremList_sremList]
  · intro h1 h2
    show delSidTok (body.getD default).GetID
      (srem (body.getD default).streamName (body.getD default).GetID st) = st
    simp [delSidTok, srem, sremList_eq_self _ _ _ h1, adel_eq_self _ _ h2]

/-- Witness for C8's conditional no-op clause: a stop for a session that is
in neither the active set nor the mapping changes nothing. -/
theorem stop_cleanup_witness :
    (onSubStop (some ⟨"s9", "", "live", "u"⟩) ⟨[("k", 3)], [], [("live", ["s2"])]⟩).2 =
      ⟨[("k", 3)], [], [("live", ["s2"])]⟩ :=
  (stop_cleanup (some ⟨"s9", "", "live", "u"⟩)
      ⟨[("k", 3)], [], [("live", ["s2"])]⟩).2.2.2.2.2 (by decide) (by decide)

/-- C1: one per-session step of an Enforcer cycle (the body applied by
`enforceSids`/`enforceStreams` to every session id of every snapshotted
stream set each tick): a session without a mapping is skipped with no
state change and no error; otherwise the token's current-month entry is
decremented by the fixed per-tick cost 5 and, if the post-decrement
balance is ≤ 0, exactly one synchronous eviction is issued for
`(stream, sid)`, the sid leaves the stream's active set and its mapping is
deleted; if the balance stays positive nothing else changes. -/
theorem enforcer_session_step (month stream sid : String) (st : RState) :
    (alookup sid st.sidTok = none → enforceSession month stream sid st = (st, [])) ∧
    (∀ tk, alookup sid st.sidTok = some tk → tk ≠ "" →
      alookup (remainKey tk month) (enforceSession month stream sid st).1.remain =
          some ((alookup (remainKey tk month) st.remain).getD 0 - 5) ∧
      ((alookup (remainKey tk month) st.remain).getD 0 - 5 ≤ 0 →
        (enforceSession month stream sid st).2 = [(stream, sid)] ∧
        sid ∉ activeOf (enforceSession month stream sid st).1 stream ∧
        alookup sid (enforceSession month stream sid st).1.sidTok = none) ∧
      (0 < (alookup (remainKey tk month) st.remain).getD 0 - 5 →
        (enforceSession month stream sid st).2 = [] ∧
        (enforceSession month stream sid st).1.sidTok = st.sidTok ∧
        (enforceSession month stream sid st).1.active = st.active)) := by
  constructor
  · intro h
    simp [enforceSession, h]
  · intro tk htk hne
    have hbody : enforceSession month stream sid st =
        if (alookup (remainKey tk month) st.remain).getD 0 - 5 ≤ 0 then
          (delSidTok sid (srem stream sid
            ⟨aset (remainKey tk month)
              ((alookup (remainKey tk month) st.remain).getD 0 - 5) st.remain,
             st.sidTok, st.active⟩),
           [(stream, sid)])
        else
          (⟨aset (remainKey tk month)
              ((alookup (remainKey tk month) st.remain).getD 0 - 5) st.remain,
            st.sidTok, st.active⟩, []) := by
      simp [enforceSession, htk, hne, decrBy]
    by_cases hle : (alookup (remainKey tk month) st.remain).getD 0 - 5 ≤ 0
    · rw [hbody, if_pos hle]
      refine ⟨alookup_aset_self _ _ _,
        fun _ => ⟨rfl, ?_, alookup_adel_self _ _⟩,
        fun hgt => absurd hle (not_le.mpr hgt)⟩
      show sid ∉ activeOf (srem stream sid
        ⟨aset (remainKey tk month)
          ((alookup (remainKey tk month) st.remain).getD 0 - 5) st.remain,
         st.sidTok, st.active⟩) stream
      rw [activeOf_srem_self]
      exact not_mem_lrem _ _
    · rw [hbody, if_neg hle]
      exact ⟨alookup_aset_self _ _ _,
        fun hle2 => absurd hle2 hle,
        fun _ => ⟨rfl, rfl, rfl⟩⟩

/-- Witness for C1 at a concrete exhausting tick: balance 4 drops to −1,
one eviction is issued. -/
theorem enforcer_session_step_witness :
    (enforceSession "2026-02" "live" "s1"
        ⟨[("remain:t:2026-02", 4)], [("s1", "t")], [("live", ["s1"])]⟩).2 = [("live", "s1")] := by
  have h := (enforcer_session_step "2026-02" "live" "s1"
      ⟨[("remain:t:2026-02", 4)], [("s1", "t")], [("live", ["s1"])]⟩).2 "t" (by decide) (by decide)
  exact (h.2.1 (by decide)).1

theorem remain_enforceSession_mono (month stream sid k : String) (v : Int) (st : RState)
    (h : alookup k st.remain = some v) :
    ∃ w, alookup k (enforceSession month stream sid st).1.remain = some w ∧ w ≤ v := by
  cases htok : alookup sid st.sidTok with
  | none => exact ⟨v, by simp [enforceSession, htok, h], le_refl v⟩
  | some tk =>
    by_cases hne : tk = ""
    · exact ⟨v, by simp [enforceSession, htok, hne, h], le_refl v⟩
    · by_cases hk : k = remainKey tk month
      · refine ⟨v - 5, ?_, by omega⟩
        subst hk
        simp only [enforceSession, htok, Option.getD_some, if_neg hne, decrBy, h]
        split <;> exact alookup_aset_self _ _ _
      · refine ⟨v, ?_, le_refl v⟩
        simp only [enforceSession, htok, Option.getD_some, if_neg hne, decrBy]
        split <;> exact (alookup_aset_ne _ _ _ _ hk).trans h

theorem remain_enforceSids_mono (month stream : String) (sids : List String) (st : RState)
    (k : String) (v : Int) (h : alookup k st.remain = some v) :
    ∃ w, alookup k (enforceSids month stream sids st).1.remain = some w ∧ w ≤ v := by
  induction sids generalizing st v with
  | nil => exact ⟨v, h, le_refl v⟩
  | cons sid rest ih =>
    obtain ⟨w1, hw1, hle1⟩ := remain_enforceSession_mono month stream sid k v st h
    obtain ⟨w2, hw2, hle2⟩ := ih (enforceSession month stream sid st).1 w1 hw1
    refine ⟨w2, ?_, le_trans hle2 hle1⟩
    simpa [enforceSids] using hw2

theorem remain_enforceStreams_mono (month : String) (streams : List String) (st : RState)
    (k : String) (v : Int) (h : alookup k st.remain = some v) :
    ∃ w, alookup k (enforceStreams month streams st).1.remain = some w ∧ w ≤ v := by
  induction streams generalizing st v with
  | nil => exact ⟨v, h, le_refl v⟩
  | cons s rest ih =>
    obtain ⟨w1, hw1, hle1⟩ := remain_enforceSids_mono month s (activeOf st s) st k v h
    obtain ⟨w2, hw2, hle2⟩ := ih (enforceSids month s (activeOf st s) st).1 w1 hw1
    refine ⟨w2, ?_, le_trans hle2 hle1⟩
    simpa [enforceStreams] using hw2

/-- C9: within a fixed month an existing ledger entry is monotonically
non-increasing and never clamped: any admission check leaves its value
exactly as it was, a stop notification leaves it untouched, an Enforcer
cycle can only keep or lower it, and the decrement primitive stores the
exact post-decrement value — negative values included. -/
theorem ledger_monotone (month : String) (st : RState) (k : String) (v : Int)
    (h : alookup k st.remain = some v) :
    (∀ body out, onSubStart month body st = some out →
        alookup k out.state.remain = some v) ∧
    (∀ body, alookup k (onSubStop body st).2.remain = some v) ∧
    (∃ w, alookup k (enforceCycle month st).1.remain = some w ∧ w ≤ v) ∧
    (∀ key n, alookup key (decrBy key n st).2.remain =
        some ((alookup key st.remain).getD 0 - n)) := by
  refine ⟨?_, fun body => h,
    remain_enforceStreams_mono month (st.active.map Prod.fst) st k v h,
    fun key n => alookup_aset_self _ _ _⟩
  intro body out hout
  cases body with
  | none =>
    cases hout
    exact h
  | some msg =>
    cases hu : urlParse msg.url with
    | none => simp [onSubStart, hu] at hout
    | some u =>
      simp only [onSubStart, hu] at hout
      by_cases ht : tokenOf u = ""
      · rw [if_pos ht] at hout
        cases hout
        exact h
      · rw [if_neg ht] at hout
        split_ifs at hout with h1
        · cases hout
          exact alookup_setNX_of_some _ _ _ _ _ h
        · cases hout
          exact alookup_setNX_of_some _ _ _ _ _ h

/-- Witness for C9 at a concrete state: one tick lowers balance 4 to −1. -/
theorem ledger_monotone_witness :
    ∃ w, alookup "remain:t:2026-02"
        (enforceCycle "2026-02"
          ⟨[("remain:t:2026-02", 4)], [("s1", "t")], [("live", ["s1"])]⟩).1.remain =
      some w ∧ w ≤ 4 :=
  (ledger_monotone "2026-02" ⟨[("remain:t:2026-02", 4)], [("s1", "t")], [("live", ["s1"])]⟩
      "remain:t:2026-02" 4 (by decide)).2.2.1

end LalWebhook
